import Mathlib

/-!
Layout of the per-CPU DTrace state in `linux/sys/cpuvar.h`

The header declares two records, `cpu_t` and `cpu_core_t`, and three object-like
preprocessor definitions (`CPU_CACHE_COHERENCE_SIZE`, `CPUC_SIZE`, `CPUC_PADSIZE`) that size
the padding array `cpuc_pad`.  The header does not declare `uint16_t`, `uintptr_t`,
`mutex_t` or `size_t`; they come from the platform, so they are the parameters
(`Target`) of everything below.

The development has two views of the preprocessor definitions:

* an arithmetic view (`CPUC_SIZE`, `CPUC_PADSIZE`): the value of the expression in
  `size_t` arithmetic, i.e. modulo `2 ^ size_bits`;
* a token view (`defineBody`, `expandTokens`, `evalTokens`): the replacement lists as the
  preprocessor sees them, textual expansion, and evaluation of the resulting tokens with
  the precedence of C.

`cpu_core_t` is laid out by the natural-alignment rule of the C ABIs: every member is put
at the next multiple of its alignment and the size of the record is rounded up to the
largest member alignment.
-/

namespace CpuVar

/-! ## Platform parameters -/

/-- A C object type as the layout rule sees it: `sizeof` and alignment, in bytes. -/
structure CType where
  size : Nat
  align : Nat
deriving DecidableEq

/-- The platform: the width of `size_t` in bits and the three types the header uses
without declaring them.  `kmutex_t` is defined by the header as `mutex_t`. -/
structure Target where
  size_bits : Nat
  uint16_t : CType
  uintptr_t : CType
  mutex_t : CType
deriving DecidableEq

/-- The number is a power of two.  The bound on the exponent loses nothing, since
`k < 2 ^ k`, and makes the test a finite search. -/
def isPow2 (a : Nat) : Prop := ∃ k, k < a ∧ a = 2 ^ k

instance (a : Nat) : Decidable (isPow2 a) := by
  unfold isPow2; exact inferInstance

/-- Natural alignment: the alignment is a power of two and divides the size, as for every
type that can be the element of an array. -/
def CType.wf (c : CType) : Prop := isPow2 c.align ∧ c.align ∣ c.size

instance (c : CType) : Decidable c.wf := by
  unfold CType.wf; exact inferInstance

/-! ## `size_t` arithmetic -/

/-- Addition of two `size_t` operands of width `w`. -/
def szAdd (w a b : Nat) : Nat := (a + b) % 2 ^ w

/-- Subtraction of two `size_t` operands of width `w`: reduced modulo `2 ^ w`, never
negative. -/
def szSub (w a b : Nat) : Nat := (a % 2 ^ w + (2 ^ w - b % 2 ^ w)) % 2 ^ w

/-- Multiplication of two `size_t` operands of width `w`. -/
def szMul (w a b : Nat) : Nat := (a * b) % 2 ^ w

/-! ## The preprocessor definitions, arithmetic view -/

/-- `#define CPU_CACHE_COHERENCE_SIZE 64`. -/
def CPU_CACHE_COHERENCE_SIZE : Nat := 64

/-- `# define kmutex_t mutex_t`. -/
def kmutex_t (t : Target) : CType := t.mutex_t

/-- The element type of `cpuc_pad`: one byte, no alignment requirement. -/
def uint8_t : CType := ⟨1, 1⟩

/-- `#define CPUC_SIZE (sizeof (uint16_t) + sizeof (uintptr_t) + sizeof (kmutex_t))`:
a left-associated sum of three `size_t` values. -/
def CPUC_SIZE (t : Target) : Nat :=
  szAdd t.size_bits (szAdd t.size_bits t.uint16_t.size t.uintptr_t.size) (kmutex_t t).size

/-- `#define CPUC_PADSIZE CPU_CACHE_COHERENCE_SIZE - CPUC_SIZE`, evaluated on its own.
The left operand is the `int` constant 64, converted to `size_t` because the right
operand is a `size_t`. -/
def CPUC_PADSIZE (t : Target) : Nat :=
  szSub t.size_bits CPU_CACHE_COHERENCE_SIZE (CPUC_SIZE t)

/-- The value `CPUC_PADSIZE` would have were `CPU_CACHE_COHERENCE_SIZE` defined as `c`. -/
def CPUC_PADSIZE_at (c : Nat) (t : Target) : Nat :=
  szSub t.size_bits c (CPUC_SIZE t)

/-! ## Natural-alignment record layout -/

/-- The next multiple of `a` at or after `off`. -/
def alignUp (off a : Nat) : Nat := off + (a - off % a) % a

/-- An array type of `n` elements. -/
def arrayOf (elem : CType) (n : Nat) : CType := ⟨n * elem.size, elem.align⟩

/-- Offsets of the members of a record whose first free byte is `off`. -/
def layoutFrom (off : Nat) : List CType → List Nat
  | [] => []
  | m :: ms => alignUp off m.align :: layoutFrom (alignUp off m.align + m.size) ms

/-- The first byte after the last member of a record whose first free byte is `off`. -/
def endFrom (off : Nat) : List CType → Nat
  | [] => off
  | m :: ms => endFrom (alignUp off m.align + m.size) ms

/-- The alignment of a record: the largest member alignment. -/
def structAlign : List CType → Nat
  | [] => 1
  | m :: ms => max m.align (structAlign ms)

/-- Member offsets of a record. -/
def offsetsOf (ms : List CType) : List Nat := layoutFrom 0 ms

/-- `sizeof` of a record: the end of the last member rounded up to the record's
alignment. -/
def sizeofStruct (ms : List CType) : Nat := alignUp (endFrom 0 ms) (structAlign ms)

/-- The members of `cpu_core_t` in declaration order:
`cpuc_dtrace_flags`, `cpuc_pad[CPUC_PADSIZE]`, `cpuc_dtrace_illval`, `cpuc_pid_lock`. -/
def cpu_core_t (t : Target) : List CType :=
  [t.uint16_t, arrayOf uint8_t (CPUC_PADSIZE t), t.uintptr_t, kmutex_t t]

/-- The members of `cpu_core_t` were `CPU_CACHE_COHERENCE_SIZE` defined as `c`. -/
def cpu_core_t_at (c : Nat) (t : Target) : List CType :=
  [t.uint16_t, arrayOf uint8_t (CPUC_PADSIZE_at c t), t.uintptr_t, kmutex_t t]

/-- The value of `sizeof (cpu_core_t)`. -/
def sizeof_cpu_core_t (t : Target) : Nat := sizeofStruct (cpu_core_t t)

/-- The value of `_Alignof (cpu_core_t)`. -/
def alignof_cpu_core_t (t : Target) : Nat := structAlign (cpu_core_t t)

/-- The usual 64-bit build: 64-bit `size_t`, 8-byte pointers, an 8-byte lock. -/
def lp64 : Target := ⟨64, ⟨2, 2⟩, ⟨8, 8⟩, ⟨8, 8⟩⟩

/-- A 64-bit build whose lock is a 4-byte word. -/
def lp64_lock4 : Target := ⟨64, ⟨2, 2⟩, ⟨8, 8⟩, ⟨4, 4⟩⟩

/-- A 64-bit build whose lock takes 56 bytes, so the three fields total 66 bytes. -/
def lp64_lock56 : Target := ⟨64, ⟨2, 2⟩, ⟨8, 8⟩, ⟨56, 8⟩⟩

/-! ## The preprocessor definitions, token view -/

/-- The identifiers that occur in the header's definitions and in the length of
`cpuc_pad`. -/
inductive Name where
  | CPU_CACHE_COHERENCE_SIZE
  | kmutex_t
  | mutex_t
  | CPUC_SIZE
  | CPUC_PADSIZE
  | uint16_t
  | uintptr_t
  | uint8_t
deriving DecidableEq

/-- Preprocessing tokens of the constant expressions in the header. -/
inductive Tok where
  | num (n : Nat)
  | id (n : Name)
  | kw_sizeof
  | lparen
  | rparen
  | plus
  | minus
  | star
deriving DecidableEq

/-- The replacement list of each `#define` of the header, token for token; `none` for an
identifier the header does not define. -/
def defineBody : Name → Option (List Tok)
  | .CPU_CACHE_COHERENCE_SIZE => some [.num 64]
  | .kmutex_t => some [.id .mutex_t]
  | .CPUC_SIZE =>
      some [.lparen, .kw_sizeof, .lparen, .id .uint16_t, .rparen, .plus,
            .kw_sizeof, .lparen, .id .uintptr_t, .rparen, .plus,
            .kw_sizeof, .lparen, .id .kmutex_t, .rparen, .rparen]
  | .CPUC_PADSIZE => some [.id .CPU_CACHE_COHERENCE_SIZE, .minus, .id .CPUC_SIZE]
  | _ => none

/-- Textual expansion: every defined identifier is replaced by its replacement list, which
is rescanned; `fuel` bounds the nesting depth of the rescans. -/
def expandTokens : Nat → List Tok → List Tok
  | 0, ts => ts
  | fuel + 1, ts =>
      ts.flatMap fun tk =>
        match tk with
        | .id n =>
            match defineBody n with
            | some body => expandTokens fuel body
            | none => [tk]
        | _ => [tk]

/-- Expansion with enough rescans for the header: its definitions nest three deep
(`CPUC_PADSIZE`, `CPUC_SIZE`, `kmutex_t`). -/
def expand (ts : List Tok) : List Tok := expandTokens 4 ts

/-- No token of the list is an identifier with a definition: expansion is complete. -/
def fullyExpanded (ts : List Tok) : Bool :=
  ts.all fun tk =>
    match tk with
    | .id n => (defineBody n).isNone
    | _ => true

/-- `sizeof` of a type name, after expansion. -/
def sizeofName (t : Target) : Name → Option Nat
  | .uint16_t => some t.uint16_t.size
  | .uintptr_t => some t.uintptr_t.size
  | .mutex_t => some t.mutex_t.size
  | .uint8_t => some uint8_t.size
  | _ => none

mutual

/-- A primary expression: a constant, `sizeof ( type-name )`, or a parenthesised
expression.  Returns the value and the tokens left. -/
def evalPrimary (t : Target) : Nat → List Tok → Option (Nat × List Tok)
  | 0, _ => none
  | _ + 1, .num n :: rest => some (n % 2 ^ t.size_bits, rest)
  | _ + 1, .kw_sizeof :: .lparen :: .id n :: .rparen :: rest =>
      match sizeofName t n with
      | some v => some (v, rest)
      | none => none
  | fuel + 1, .lparen :: rest =>
      match evalAdditive t fuel rest with
      | some (v, .rparen :: rest1) => some (v, rest1)
      | _ => none
  | _ + 1, _ => none

/-- The tail of a multiplicative expression after the left operand `acc`. -/
def evalMulTail (t : Target) : Nat → Nat → List Tok → Option (Nat × List Tok)
  | 0, _, _ => none
  | fuel + 1, acc, .star :: rest =>
      match evalPrimary t fuel rest with
      | some (v, rest1) => evalMulTail t fuel (szMul t.size_bits acc v) rest1
      | none => none
  | _ + 1, acc, rest => some (acc, rest)

/-- A multiplicative expression: primaries joined by `*`, left to right. -/
def evalMultiplicative (t : Target) : Nat → List Tok → Option (Nat × List Tok)
  | 0, _ => none
  | fuel + 1, ts =>
      match evalPrimary t fuel ts with
      | some (v, rest) => evalMulTail t fuel v rest
      | none => none

/-- The tail of an additive expression after the left operand `acc`. -/
def evalAddTail (t : Target) : Nat → Nat → List Tok → Option (Nat × List Tok)
  | 0, _, _ => none
  | fuel + 1, acc, .plus :: rest =>
      match evalMultiplicative t fuel rest with
      | some (v, rest1) => evalAddTail t fuel (szAdd t.size_bits acc v) rest1
      | none => none
  | fuel + 1, acc, .minus :: rest =>
      match evalMultiplicative t fuel rest with
      | some (v, rest1) => evalAddTail t fuel (szSub t.size_bits acc v) rest1
      | none => none
  | _ + 1, acc, rest => some (acc, rest)

/-- An additive expression: multiplicative expressions joined by `+` and `-`, left to
right. -/
def evalAdditive (t : Target) : Nat → List Tok → Option (Nat × List Tok)
  | 0, _ => none
  | fuel + 1, ts =>
      match evalMultiplicative t fuel ts with
      | some (v, rest) => evalAddTail t fuel v rest
      | none => none

end

/-- The value of a token list that is one complete constant expression, in `size_t`
arithmetic; `none` when the tokens are not such an expression.  The recursion is bounded
by four steps per token, which no expression exceeds. -/
def evalTokens (t : Target) (ts : List Tok) : Option Nat :=
  match evalAdditive t (4 * ts.length + 4) ts with
  | some (v, []) => some v
  | _ => none

/-- The array length of `cpuc_pad` as the compiler computes it: the declarator
`cpuc_pad[CPUC_PADSIZE]` is expanded and the resulting expression evaluated. -/
def cpuc_pad_length (t : Target) : Option Nat :=
  evalTokens t (expand [.id .CPUC_PADSIZE])

/-! ## The declaration of `cpu_core_t` as the compiler takes it -/

/-- The largest object the compiler supports, in bytes: `PTRDIFF_MAX`, half the range of
`size_t`.  gcc and clang refuse an array or a record that is larger. -/
def maxObjectSize (t : Target) : Nat := 2 ^ (t.size_bits - 1) - 1

/-- Why the compiler refuses the declaration of `cpu_core_t`. -/
inductive DeclError where
  | notConstant
  | arrayTooLarge
  | typeTooLarge
deriving DecidableEq

/-- The declaration of `cpu_core_t` as the compiler takes it.  The length of `cpuc_pad`
must be a constant expression, the array must not exceed the largest object, and neither
must the record.  The header itself adds no check of its own.  The result is the padding
length the build ends up with, or the reason there is no build. -/
def cpuc_pad_declared (t : Target) : Except DeclError Nat :=
  match cpuc_pad_length t with
  | none => .error .notConstant
  | some n =>
      if maxObjectSize t < n * uint8_t.size then .error .arrayTooLarge
      else if maxObjectSize t < sizeofStruct (cpu_core_t t) then .error .typeTooLarge
      else .ok n

/-! ## The records as values, and the per-processor table -/

/-- The record `cpu_t`, field for field.  Pointers and unsigned fields are naturals;
`int` and `hrtime_t` fields are integers. -/
structure cpu_t where
  cpuid : Int
  cpu_cyclic : Nat
  cpu_flags : Nat
  cpu_intr_actv : Nat
  cpu_profile_pc : Nat
  cpu_profile_upc : Nat
  cpu_dtrace_caller : Nat
  cpu_dtrace_chillmark : Int
  cpu_dtrace_chilled : Int
deriving DecidableEq

/-- The record `cpu_core_t` as a value, field for field; the lock is kept as its raw
bytes. -/
structure cpu_core where
  cpuc_dtrace_flags : Nat
  cpuc_pad : List Nat
  cpuc_dtrace_illval : Nat
  cpuc_pid_lock : List Nat
deriving DecidableEq

/-- The address of element `i` of an array of `cpu_core_t` that starts at `base`. -/
def cpu_core_addr (t : Target) (base i : Nat) : Nat := base + i * sizeof_cpu_core_t t

/-- Address `a` is one of the bytes of element `i` of the array at `base`: the range is
`[base + i * sizeof, base + (i + 1) * sizeof)`. -/
def inSlot (t : Target) (base i a : Nat) : Prop :=
  cpu_core_addr t base i ≤ a ∧ a < cpu_core_addr t base (i + 1)

instance (t : Target) (base i a : Nat) : Decidable (inSlot t base i a) := by
  unfold inSlot; exact inferInstance

/-- The table of per-processor state: `NCPU` slots, each a `cpu_t` and its `cpu_core_t`,
and which of the processors are online. -/
structure PerCpuTable where
  NCPU : Nat
  online : Nat → Bool
  cpu : Nat → cpu_t
  core : Nat → cpu_core

/-- The one error of the table lookup. -/
inductive TableError where
  | indexRange
deriving DecidableEq

/-- Modelled from the spec: the lookup `get(processorId)` of the per-processor table.
The header only declares the element types and mentions the `NCPU`-sized array in a
comment; the lookup itself is not in the header.  Following the specification, the
identifier of an online processor with `0 <= id < NCPU` yields the two records of that
slot, and an identifier that is out of range or offline is an index-range error. -/
def PerCpuTable.get (tbl : PerCpuTable) (id : Int) : Except TableError (cpu_t × cpu_core) :=
  if 0 ≤ id ∧ id < (tbl.NCPU : Int) ∧ tbl.online id.toNat = true then
    .ok (tbl.cpu id.toNat, tbl.core id.toNat)
  else
    .error .indexRange

/-! ## Arithmetic helpers -/

theorem two_pow_gt_of_seven_le {w : Nat} (hw : 7 ≤ w) : 64 < 2 ^ w := by
  have h : 2 ^ 7 ≤ 2 ^ w := Nat.pow_le_pow_right (by decide) hw
  have h7 : (2 : Nat) ^ 7 = 128 := by decide
  omega

theorem szAdd_of_lt {w a b : Nat} (h : a + b < 2 ^ w) : szAdd w a b = a + b := by
  unfold szAdd
  exact Nat.mod_eq_of_lt h

theorem szAdd_lt (w a b : Nat) : szAdd w a b < 2 ^ w := by
  unfold szAdd
  exact Nat.mod_lt _ (Nat.pos_pow_of_pos w (by decide))

theorem szSub_of_le {w a b : Nat} (hab : b ≤ a) (ha : a < 2 ^ w) : szSub w a b = a - b := by
  unfold szSub
  have hb : b < 2 ^ w := Nat.lt_of_le_of_lt hab ha
  rw [Nat.mod_eq_of_lt ha, Nat.mod_eq_of_lt hb]
  have e : a + (2 ^ w - b) = (a - b) + 2 ^ w := by omega
  rw [e, Nat.add_mod_right]
  exact Nat.mod_eq_of_lt (by omega)

theorem szSub_of_gt {w a b : Nat} (hab : a < b) (hb : b < 2 ^ w) :
    szSub w a b = 2 ^ w - (b - a) := by
  unfold szSub
  have ha : a < 2 ^ w := Nat.lt_trans hab hb
  rw [Nat.mod_eq_of_lt ha, Nat.mod_eq_of_lt hb]
  have e : a + (2 ^ w - b) = 2 ^ w - (b - a) := by omega
  rw [e]
  exact Nat.mod_eq_of_lt (by omega)

theorem alignUp_ge (off a : Nat) : off ≤ alignUp off a := Nat.le_add_right _ _

theorem alignUp_of_dvd {off a : Nat} (h : a ∣ off) : alignUp off a = off := by
  unfold alignUp
  rw [Nat.mod_eq_zero_of_dvd h, Nat.sub_zero, Nat.mod_self, Nat.add_zero]

theorem alignUp_eq_iff {off a : Nat} (ha : 0 < a) : alignUp off a = off ↔ a ∣ off := by
  constructor
  · intro h
    unfold alignUp at h
    have hr : off % a < a := Nat.mod_lt _ ha
    have h0 : (a - off % a) % a = 0 := by omega
    by_cases hz : off % a = 0
    · exact Nat.dvd_of_mod_eq_zero hz
    · have hlt : a - off % a < a := by omega
      rw [Nat.mod_eq_of_lt hlt] at h0
      omega
  · exact alignUp_of_dvd

theorem alignUp_zero (a : Nat) : alignUp 0 a = 0 := alignUp_of_dvd (Nat.dvd_zero a)

theorem alignUp_one (off : Nat) : alignUp off 1 = off := alignUp_of_dvd (Nat.one_dvd off)

theorem isPow2_exists {a : Nat} (h : isPow2 a) : ∃ k, a = 2 ^ k := by
  obtain ⟨k, -, hk⟩ := h
  exact ⟨k, hk⟩

theorem pow2_dvd_of_le {a b : Nat} (ha : ∃ k, a = 2 ^ k) (hb : ∃ k, b = 2 ^ k) (hab : a ≤ b) :
    a ∣ b := by
  obtain ⟨i, rfl⟩ := ha
  obtain ⟨j, rfl⟩ := hb
  have hij : i ≤ j := by
    by_contra hc
    have hlt : j < i := Nat.lt_of_not_ge hc
    have := Nat.pow_lt_pow_right (a := 2) (by decide) hlt
    omega
  exact Nat.pow_dvd_pow 2 hij

theorem pow2_max {a b : Nat} (ha : ∃ k, a = 2 ^ k) (hb : ∃ k, b = 2 ^ k) :
    ∃ k, max a b = 2 ^ k := by
  rcases Nat.le_total a b with h | h
  · rw [Nat.max_eq_right h]; exact hb
  · rw [Nat.max_eq_left h]; exact ha

theorem pow2_max_dvd {a b n : Nat} (ha : ∃ k, a = 2 ^ k) (hb : ∃ k, b = 2 ^ k) :
    max a b ∣ n ↔ a ∣ n ∧ b ∣ n := by
  rcases Nat.le_total a b with h | h
  · rw [Nat.max_eq_right h]
    exact ⟨fun hn => ⟨Nat.dvd_trans (pow2_dvd_of_le ha hb h) hn, hn⟩, fun hn => hn.2⟩
  · rw [Nat.max_eq_left h]
    exact ⟨fun hn => ⟨hn, Nat.dvd_trans (pow2_dvd_of_le hb ha h) hn⟩, fun hn => hn.1⟩

theorem pow2_pos {a : Nat} (ha : ∃ k, a = 2 ^ k) : 0 < a := by
  obtain ⟨k, rfl⟩ := ha
  exact Nat.pos_pow_of_pos k (by decide)

/-! ## The layout of a record shaped like `cpu_core_t` -/

theorem sizeofStruct_shape (f p l : CType) (n : Nat) :
    sizeofStruct [f, arrayOf uint8_t n, p, l] =
      alignUp (alignUp (alignUp (f.size + n) p.align + p.size) l.align + l.size)
        (max f.align (max 1 (max p.align (max l.align 1)))) := by
  simp [sizeofStruct, endFrom, structAlign, alignUp_zero, alignUp_one, arrayOf, uint8_t]

theorem offsetsOf_shape (f p l : CType) (n : Nat) :
    offsetsOf [f, arrayOf uint8_t n, p, l] =
      [0, f.size, alignUp (f.size + n) p.align,
        alignUp (alignUp (f.size + n) p.align + p.size) l.align] := by
  simp [offsetsOf, layoutFrom, alignUp_zero, alignUp_one, arrayOf, uint8_t]

theorem structAlign_dvd_iff (f p l : CType) (c : Nat)
    (hf : ∃ k, f.align = 2 ^ k) (hp : ∃ k, p.align = 2 ^ k) (hl : ∃ k, l.align = 2 ^ k) :
    max f.align (max 1 (max p.align (max l.align 1))) ∣ c ↔
      f.align ∣ c ∧ p.align ∣ c ∧ l.align ∣ c := by
  have h1 : ∃ k, (1 : Nat) = 2 ^ k := ⟨0, rfl⟩
  have hl1 := pow2_max hl h1
  have hpl := pow2_max hp hl1
  have h1pl := pow2_max h1 hpl
  rw [pow2_max_dvd hf h1pl, pow2_max_dvd h1 hpl, pow2_max_dvd hp hl1, pow2_max_dvd hl h1]
  constructor
  · rintro ⟨a, -, b, c, -⟩
    exact ⟨a, b, c⟩
  · rintro ⟨a, b, c⟩
    exact ⟨a, Nat.one_dvd _, b, c, Nat.one_dvd _⟩

theorem sizeofStruct_shape_ge (f p l : CType) (n : Nat) :
    f.size + n + p.size + l.size ≤ sizeofStruct [f, arrayOf uint8_t n, p, l] := by
  rw [sizeofStruct_shape]
  have h1 := alignUp_ge (f.size + n) p.align
  have h2 := alignUp_ge (alignUp (f.size + n) p.align + p.size) l.align
  have h3 := alignUp_ge (alignUp (alignUp (f.size + n) p.align + p.size) l.align + l.size)
    (max f.align (max 1 (max p.align (max l.align 1))))
  omega

theorem sizeofStruct_shape_eq_iff (f p l : CType) (n c : Nat)
    (hsum : f.size + n + p.size + l.size = c)
    (hf : ∃ k, f.align = 2 ^ k) (hp : ∃ k, p.align = 2 ^ k) (hl : ∃ k, l.align = 2 ^ k) :
    sizeofStruct [f, arrayOf uint8_t n, p, l] = c ↔
      p.align ∣ f.size + n ∧ l.align ∣ f.size + n + p.size ∧
        (f.align ∣ c ∧ p.align ∣ c ∧ l.align ∣ c) := by
  rw [sizeofStruct_shape, ← structAlign_dvd_iff f p l c hf hp hl]
  have h1 := alignUp_ge (f.size + n) p.align
  have h2 := alignUp_ge (alignUp (f.size + n) p.align + p.size) l.align
  have h3 := alignUp_ge (alignUp (alignUp (f.size + n) p.align + p.size) l.align + l.size)
    (max f.align (max 1 (max p.align (max l.align 1))))
  constructor
  · intro h
    have e1 : alignUp (f.size + n) p.align = f.size + n := by omega
    have e2 : alignUp (alignUp (f.size + n) p.align + p.size) l.align =
        alignUp (f.size + n) p.align + p.size := by omega
    have e3 : alignUp (alignUp (alignUp (f.size + n) p.align + p.size) l.align + l.size)
        (max f.align (max 1 (max p.align (max l.align 1)))) =
        alignUp (alignUp (f.size + n) p.align + p.size) l.align + l.size := by omega
    have hM : 0 < max f.align (max 1 (max p.align (max l.align 1))) :=
      Nat.lt_of_lt_of_le (pow2_pos hf) (Nat.le_max_left _ _)
    refine ⟨(alignUp_eq_iff (pow2_pos hp)).1 e1, ?_, ?_⟩
    · have := (alignUp_eq_iff (pow2_pos hl)).1 e2
      rwa [e1] at this
    · have := (alignUp_eq_iff hM).1 e3
      rw [e2, e1, hsum] at this
      exact this
  · rintro ⟨d1, d2, d3⟩
    rw [alignUp_of_dvd d1, alignUp_of_dvd d2, hsum, alignUp_of_dvd d3]

/-- The divisibility conditions in terms of the configured size, for members whose
alignment divides their size. -/
theorem shape_conditions_iff (f p l : CType) (n c : Nat)
    (hsum : f.size + n + p.size + l.size = c) (hpw : p.align ∣ p.size)
    (hlw : l.align ∣ l.size) :
    (p.align ∣ f.size + n ∧ l.align ∣ f.size + n + p.size ∧
        (f.align ∣ c ∧ p.align ∣ c ∧ l.align ∣ c)) ↔
      (f.align ∣ c ∧ p.align ∣ c ∧ l.align ∣ c ∧ p.align ∣ l.size) := by
  constructor
  · rintro ⟨d1, -, df, dp, dl⟩
    refine ⟨df, dp, dl, ?_⟩
    have hc : p.align ∣ (f.size + n + p.size) + l.size := by rw [hsum]; exact dp
    exact (Nat.dvd_add_right (Nat.dvd_add d1 hpw)).1 hc
  · rintro ⟨df, dp, dl, dpl⟩
    have hc : l.align ∣ (f.size + n + p.size) + l.size := by rw [hsum]; exact dl
    have d2 : l.align ∣ f.size + n + p.size := (Nat.dvd_add_left hlw).1 hc
    have hc2 : p.align ∣ (f.size + n) + (p.size + l.size) := by
      rw [← Nat.add_assoc, hsum]; exact dp
    have d1 : p.align ∣ f.size + n := (Nat.dvd_add_left (Nat.dvd_add hpw dpl)).1 hc2
    exact ⟨d1, d2, df, dp, dl⟩

/-- `CPUC_SIZE` is the plain sum when the sum fits `size_t`. -/
theorem CPUC_SIZE_of_fit (t : Target)
    (h : t.uint16_t.size + t.uintptr_t.size + (kmutex_t t).size < 2 ^ t.size_bits) :
    CPUC_SIZE t = t.uint16_t.size + t.uintptr_t.size + (kmutex_t t).size := by
  unfold CPUC_SIZE
  have h1 : szAdd t.size_bits t.uint16_t.size t.uintptr_t.size =
      t.uint16_t.size + t.uintptr_t.size := szAdd_of_lt (by omega)
  rw [h1, szAdd_of_lt h]

/-- The padding length is the plain difference when the fields fit the configured size. -/
theorem CPUC_PADSIZE_at_of_fit (c : Nat) (t : Target) (hc : c < 2 ^ t.size_bits)
    (h : t.uint16_t.size + t.uintptr_t.size + (kmutex_t t).size ≤ c) :
    CPUC_PADSIZE_at c t = c - (t.uint16_t.size + t.uintptr_t.size + (kmutex_t t).size) := by
  unfold CPUC_PADSIZE_at
  rw [CPUC_SIZE_of_fit t (by omega), szSub_of_le h hc]

/-- The size of the record equals the configured size exactly when every member alignment
divides the configured size and the pointer's alignment divides the lock's size. -/
theorem sizeof_at_iff (c : Nat) (t : Target) (hc : c < 2 ^ t.size_bits)
    (hsum : t.uint16_t.size + t.uintptr_t.size + (kmutex_t t).size ≤ c)
    (wf : t.uint16_t.wf) (wp : t.uintptr_t.wf) (wl : (kmutex_t t).wf) :
    sizeofStruct (cpu_core_t_at c t) = c ↔
      (t.uint16_t.align ∣ c ∧ t.uintptr_t.align ∣ c ∧ (kmutex_t t).align ∣ c ∧
        t.uintptr_t.align ∣ (kmutex_t t).size) := by
  unfold cpu_core_t_at
  rw [CPUC_PADSIZE_at_of_fit c t hc hsum]
  have hs : t.uint16_t.size +
      (c - (t.uint16_t.size + t.uintptr_t.size + (kmutex_t t).size)) +
      t.uintptr_t.size + (kmutex_t t).size = c := by omega
  rw [sizeofStruct_shape_eq_iff _ _ _ _ c hs (isPow2_exists wf.1) (isPow2_exists wp.1)
      (isPow2_exists wl.1),
    shape_conditions_iff _ _ _ _ c hs wp.2 wl.2]

theorem sizeof_at_ge (c : Nat) (t : Target) (hc : c < 2 ^ t.size_bits)
    (hsum : t.uint16_t.size + t.uintptr_t.size + (kmutex_t t).size ≤ c) :
    c ≤ sizeofStruct (cpu_core_t_at c t) := by
  unfold cpu_core_t_at
  rw [CPUC_PADSIZE_at_of_fit c t hc hsum]
  have h := sizeofStruct_shape_ge t.uint16_t t.uintptr_t (kmutex_t t)
    (c - (t.uint16_t.size + t.uintptr_t.size + (kmutex_t t).size))
  omega

theorem CPUC_PADSIZE_of_fit (t : Target) (hw : 7 ≤ t.size_bits)
    (h : t.uint16_t.size + t.uintptr_t.size + (kmutex_t t).size ≤ 64) :
    CPUC_PADSIZE t = 64 - (t.uint16_t.size + t.uintptr_t.size + (kmutex_t t).size) :=
  CPUC_PADSIZE_at_of_fit 64 t (two_pow_gt_of_seven_le hw) h

/-- The array length of `cpuc_pad`, computed from the tokens, is the arithmetic value of
`CPUC_PADSIZE` on every platform. -/
theorem cpuc_pad_length_eq (t : Target) : cpuc_pad_length t = some (CPUC_PADSIZE t) := by
  simp [cpuc_pad_length, expand, expandTokens, defineBody, evalTokens, evalAdditive,
    evalMultiplicative, evalPrimary, evalAddTail, evalMulTail, sizeofName, CPUC_PADSIZE,
    CPUC_SIZE, kmutex_t, CPU_CACHE_COHERENCE_SIZE, szSub]

/-- The padding and the three fields together are congruent to 64 modulo `2 ^ w`,
whatever the sizes. -/
theorem padsize_add_sum_mod (t : Target) :
    (CPUC_PADSIZE t + (t.uint16_t.size + t.uintptr_t.size + (kmutex_t t).size)) %
        2 ^ t.size_bits = 64 % 2 ^ t.size_bits := by
  have hM : 0 < 2 ^ t.size_bits := Nat.pos_pow_of_pos _ (by decide)
  unfold CPUC_PADSIZE CPUC_SIZE szSub szAdd CPU_CACHE_COHERENCE_SIZE
  generalize 2 ^ t.size_bits = M at hM
  generalize hS : t.uint16_t.size + t.uintptr_t.size + (kmutex_t t).size = S
  have h1 : ((t.uint16_t.size + t.uintptr_t.size) % M + (kmutex_t t).size) % M = S % M := by
    rw [Nat.mod_add_mod, hS]
  rw [h1, Nat.mod_mod, Nat.mod_add_mod]
  have hr : S % M < M := Nat.mod_lt _ hM
  have hd : S % M + M * (S / M) = S := Nat.mod_add_div S M
  have e : 64 % M + (M - S % M) + S = 64 % M + M + M * (S / M) := by omega
  rw [e, Nat.add_mul_mod_self_left, Nat.add_mod_right, Nat.mod_mod]

/-- When the three fields exceed 64 bytes, the padding and the fields together take at
least `2 ^ w + 64` bytes. -/
theorem padsize_add_sum_ge (t : Target)
    (hbig : 64 < t.uint16_t.size + t.uintptr_t.size + (kmutex_t t).size) :
    2 ^ t.size_bits + 64 ≤
      CPUC_PADSIZE t + (t.uint16_t.size + t.uintptr_t.size + (kmutex_t t).size) := by
  have hmod := padsize_add_sum_mod t
  have hlt : 64 < CPUC_PADSIZE t +
      (t.uint16_t.size + t.uintptr_t.size + (kmutex_t t).size) := by omega
  have hdvd : 2 ^ t.size_bits ∣ CPUC_PADSIZE t +
      (t.uint16_t.size + t.uintptr_t.size + (kmutex_t t).size) - 64 :=
    (Nat.modEq_iff_dvd' (Nat.le_of_lt hlt)).1 hmod.symm
  have := Nat.le_of_dvd (by omega) hdvd
  omega

theorem maxObjectSize_lt (t : Target) : maxObjectSize t < 2 ^ t.size_bits := by
  unfold maxObjectSize
  have h1 : 2 ^ (t.size_bits - 1) ≤ 2 ^ t.size_bits :=
    Nat.pow_le_pow_right (by decide) (Nat.sub_le _ _)
  have h2 : 0 < 2 ^ (t.size_bits - 1) := Nat.pos_pow_of_pos _ (by decide)
  omega

/-- The usual 64-bit build is accepted, with 46 bytes of padding. -/
theorem cpuc_pad_declared_lp64 : cpuc_pad_declared lp64 = .ok 46 := rfl

/-! ## The claims -/

/-- C1: in the build where `CPU_CACHE_COHERENCE_SIZE` is 64, `sizeof (uint16_t)` is 2,
`sizeof (uintptr_t)` is 8 and `sizeof (kmutex_t)` is 8, `CPUC_SIZE` is 18, `CPUC_PADSIZE`
(the length of `cpuc_pad`) is 46 and `sizeof (cpu_core_t)` is 64.  It holds for every
alignment the three types can have and every `size_t` of at least 7 bits. -/
theorem cpu_core_concrete_build (t : Target) (hw : 7 ≤ t.size_bits)
    (h16 : t.uint16_t.size = 2) (hp : t.uintptr_t.size = 8) (hl : (kmutex_t t).size = 8)
    (wf : t.uint16_t.wf) (wp : t.uintptr_t.wf) (wl : (kmutex_t t).wf) :
    CPU_CACHE_COHERENCE_SIZE = 64 ∧ CPUC_SIZE t = 18 ∧ CPUC_PADSIZE t = 46 ∧
      cpuc_pad_length t = some 46 ∧ sizeof_cpu_core_t t = 64 := by
  have h64 := two_pow_gt_of_seven_le hw
  have hsz : CPUC_SIZE t = 18 := by
    rw [CPUC_SIZE_of_fit t (by omega)]; omega
  have hpad : CPUC_PADSIZE t = 46 := by
    rw [CPUC_PADSIZE_of_fit t hw (by omega)]; omega
  refine ⟨rfl, hsz, hpad, by rw [cpuc_pad_length_eq, hpad], ?_⟩
  have d16 : t.uint16_t.align ∣ 64 := Nat.dvd_trans wf.2 (by rw [h16]; decide)
  have dp : t.uintptr_t.align ∣ 64 := Nat.dvd_trans wp.2 (by rw [hp]; decide)
  have dl : (kmutex_t t).align ∣ 64 := Nat.dvd_trans wl.2 (by rw [hl]; decide)
  have dpl : t.uintptr_t.align ∣ (kmutex_t t).size := by
    rw [hl, ← hp]; exact wp.2
  exact (sizeof_at_iff 64 t h64 (by omega) wf wp wl).2 ⟨d16, dp, dl, dpl⟩

theorem cpu_core_concrete_build_witness :
    CPU_CACHE_COHERENCE_SIZE = 64 ∧ CPUC_SIZE lp64 = 18 ∧ CPUC_PADSIZE lp64 = 46 ∧
      cpuc_pad_length lp64 = some 46 ∧ sizeof_cpu_core_t lp64 = 64 :=
  cpu_core_concrete_build lp64 (by decide) rfl rfl rfl
    (by decide) (by decide) (by decide)

/-- C2: the record is meant to take exactly one cache line, and the header misses it
when the lock is a 4-byte word.  With 2-byte flags, an 8-byte pointer and a 4-byte lock
the three fields total 14 bytes, which is at most 64, `CPUC_PADSIZE` is 50, the pointer
is pushed from offset 52 to 56 and `sizeof (cpu_core_t)` is 72, not
`CPU_CACHE_COHERENCE_SIZE`. -/
theorem cpu_core_size_not_always_cache_line :
    lp64_lock4.uint16_t.size + lp64_lock4.uintptr_t.size + (kmutex_t lp64_lock4).size ≤
        CPU_CACHE_COHERENCE_SIZE ∧
      lp64_lock4.uint16_t.wf ∧ lp64_lock4.uintptr_t.wf ∧ (kmutex_t lp64_lock4).wf ∧
      CPUC_PADSIZE lp64_lock4 = 50 ∧
      cpuc_pad_declared lp64_lock4 = .ok 50 ∧
      offsetsOf (cpu_core_t lp64_lock4) = [0, 2, 56, 64] ∧
      sizeof_cpu_core_t lp64_lock4 = 72 ∧
      sizeof_cpu_core_t lp64_lock4 ≠ CPU_CACHE_COHERENCE_SIZE :=
  ⟨by decide, by decide, by decide, by decide, by decide, rfl, by decide, by decide,
    by decide⟩

/-- C3: for every pointer size `P` and lock size `L` with `2 + P + L <= 64`, the padding
length `CPUC_PADSIZE` is `64 - 2 - P - L`, it is not negative, and the declared member
sizes add up to the cache-line size: `2 + CPUC_PADSIZE + P + L = 64`. -/
theorem padsize_fills_cache_line (t : Target) (hw : 7 ≤ t.size_bits)
    (h16 : t.uint16_t.size = 2)
    (h : 2 + t.uintptr_t.size + (kmutex_t t).size ≤ 64) :
    (CPUC_PADSIZE t : Int) = 64 - 2 - (t.uintptr_t.size : Int) - ((kmutex_t t).size : Int) ∧
      (0 : Int) ≤ (CPUC_PADSIZE t : Int) ∧
      2 + CPUC_PADSIZE t + t.uintptr_t.size + (kmutex_t t).size = CPU_CACHE_COHERENCE_SIZE ∧
      cpuc_pad_length t = some (64 - 2 - t.uintptr_t.size - (kmutex_t t).size) := by
  have hpad : CPUC_PADSIZE t = 64 - (2 + t.uintptr_t.size + (kmutex_t t).size) := by
    rw [CPUC_PADSIZE_of_fit t hw (by omega), h16]
  refine ⟨by omega, by omega, ?_, ?_⟩
  · unfold CPU_CACHE_COHERENCE_SIZE; omega
  · rw [cpuc_pad_length_eq, hpad]
    congr 1
    omega

theorem padsize_fills_cache_line_witness :
    (CPUC_PADSIZE lp64_lock4 : Int) =
        64 - 2 - (lp64_lock4.uintptr_t.size : Int) - ((kmutex_t lp64_lock4).size : Int) ∧
      (0 : Int) ≤ (CPUC_PADSIZE lp64_lock4 : Int) ∧
      2 + CPUC_PADSIZE lp64_lock4 + lp64_lock4.uintptr_t.size + (kmutex_t lp64_lock4).size =
        CPU_CACHE_COHERENCE_SIZE ∧
      cpuc_pad_length lp64_lock4 =
        some (64 - 2 - lp64_lock4.uintptr_t.size - (kmutex_t lp64_lock4).size) :=
  padsize_fills_cache_line lp64_lock4 (by decide) rfl (by decide)

/-- C4: whenever the flags, the pointer and the lock together exceed the 64 bytes of
`CPU_CACHE_COHERENCE_SIZE`, the declaration of `cpuc_pad` is refused: the build gets no
padding length at all, neither zero (nothing is clamped) nor any other.  The length
expression wraps around, so either the array or the record is larger than any object;
when the fields take at most `2 ^ (w - 1) + 64` bytes it is the array. -/
theorem oversize_fields_rejected (t : Target) (h16 : t.uint16_t.size = 2)
    (hbig : 64 < 2 + t.uintptr_t.size + (kmutex_t t).size) :
    (cpuc_pad_declared t = .error .arrayTooLarge ∨
        cpuc_pad_declared t = .error .typeTooLarge) ∧
      (∀ n, cpuc_pad_declared t ≠ .ok n) ∧
      cpuc_pad_declared t ≠ .ok 0 ∧
      (1 ≤ t.size_bits →
        2 + t.uintptr_t.size + (kmutex_t t).size ≤ 2 ^ (t.size_bits - 1) + 64 →
        cpuc_pad_declared t = .error .arrayTooLarge) := by
  have hsum : 2 ^ t.size_bits + 64 ≤
      CPUC_PADSIZE t + (t.uint16_t.size + t.uintptr_t.size + (kmutex_t t).size) :=
    padsize_add_sum_ge t (by omega)
  have hmax := maxObjectSize_lt t
  have hge := sizeofStruct_shape_ge t.uint16_t t.uintptr_t (kmutex_t t) (CPUC_PADSIZE t)
  have hrec : maxObjectSize t < sizeofStruct (cpu_core_t t) := by
    unfold cpu_core_t
    omega
  have hcases : cpuc_pad_declared t = .error .arrayTooLarge ∨
      cpuc_pad_declared t = .error .typeTooLarge := by
    unfold cpuc_pad_declared
    rw [cpuc_pad_length_eq]
    by_cases ha : maxObjectSize t < CPUC_PADSIZE t * uint8_t.size
    · left; simp only [if_pos ha]
    · right; simp only [if_neg ha, if_pos hrec]
  have hno : ∀ n, cpuc_pad_declared t ≠ .ok n := by
    intro n h
    rcases hcases with h1 | h1 <;> rw [h1] at h <;> cases h
  refine ⟨hcases, hno, hno 0, ?_⟩
  intro hw hle
  have hpow : 2 ^ t.size_bits = 2 * 2 ^ (t.size_bits - 1) := by
    have e : t.size_bits = (t.size_bits - 1) + 1 := by omega
    rw [e, Nat.pow_succ, Nat.add_sub_cancel]
    omega
  have ha : maxObjectSize t < CPUC_PADSIZE t * uint8_t.size := by
    unfold maxObjectSize uint8_t
    simp only [Nat.mul_one]
    have h2 : 0 < 2 ^ (t.size_bits - 1) := Nat.pos_pow_of_pos _ (by decide)
    omega
  unfold cpuc_pad_declared
  rw [cpuc_pad_length_eq]
  simp only [if_pos ha]

theorem oversize_fields_rejected_witness :
    (cpuc_pad_declared lp64_lock56 = .error .arrayTooLarge ∨
        cpuc_pad_declared lp64_lock56 = .error .typeTooLarge) ∧
      (∀ n, cpuc_pad_declared lp64_lock56 ≠ .ok n) ∧
      cpuc_pad_declared lp64_lock56 ≠ .ok 0 ∧
      (1 ≤ lp64_lock56.size_bits →
        2 + lp64_lock56.uintptr_t.size + (kmutex_t lp64_lock56).size ≤
          2 ^ (lp64_lock56.size_bits - 1) + 64 →
        cpuc_pad_declared lp64_lock56 = .error .arrayTooLarge) :=
  oversize_fields_rejected lp64_lock56 rfl (by decide)

/-- C5, the claim fails: in the usual 64-bit build the record is 64 bytes and 8-aligned,
so 8 is a valid base address of the array; element 0 then occupies bytes 8 to 71, which
contain address 64, a multiple of 64 that is not the first byte of the element. -/
theorem cpu_core_slot_straddles_cache_line :
    sizeof_cpu_core_t lp64 = 64 ∧ alignof_cpu_core_t lp64 = 8 ∧
      alignof_cpu_core_t lp64 ∣ 8 ∧
      inSlot lp64 8 0 64 ∧ cpu_core_addr lp64 8 0 < 64 ∧ 64 ∣ 64 := by
  decide

/-- C5, amended: for every array of `cpu_core_t` at any base address, whatever the size
of the record, the byte ranges of two distinct elements are disjoint; and when the record
is exactly one cache line long, every element below `NCPU` lies inside a single 64-byte
unit (holds no multiple of 64 other than possibly its first byte) if and only if the
base address is a multiple of 64, which the alignment of the record alone does not
give. -/
theorem cpu_core_slots_disjoint_and_aligned (t : Target) (base ncpu : Nat) :
    (∀ i j a, i < ncpu → j < ncpu → i ≠ j → ¬ (inSlot t base i a ∧ inSlot t base j a)) ∧
      (sizeof_cpu_core_t t = CPU_CACHE_COHERENCE_SIZE → 0 < ncpu →
        ((∀ i a, i < ncpu → inSlot t base i a → cpu_core_addr t base i < a → ¬ 64 ∣ a) ↔
          64 ∣ base)) := by
  constructor
  · intro i j a _ _ hij
    unfold inSlot cpu_core_addr
    generalize sizeof_cpu_core_t t = s
    rintro ⟨⟨h1, h2⟩, ⟨h3, h4⟩⟩
    rcases Nat.lt_or_gt_of_ne hij with h | h
    · have := Nat.mul_le_mul_right s (show i + 1 ≤ j from h)
      omega
    · have := Nat.mul_le_mul_right s (show j + 1 ≤ i from h)
      omega
  · intro hsz hn
    unfold CPU_CACHE_COHERENCE_SIZE at hsz
    constructor
    · intro h
      by_contra hb
      have := h 0 ((base / 64 + 1) * 64) hn
      unfold inSlot cpu_core_addr at this
      rw [hsz] at this
      omega
    · intro hb i a _
      unfold inSlot cpu_core_addr
      rw [hsz]
      omega

theorem cpu_core_slots_disjoint_and_aligned_witness :
    (∀ i j a, i < 4 → j < 4 → i ≠ j →
        ¬ (inSlot lp64_lock4 8 i a ∧ inSlot lp64_lock4 8 j a)) ∧
      ((∀ i a, i < 4 → inSlot lp64 128 i a → cpu_core_addr lp64 128 i < a → ¬ 64 ∣ a) ↔
        64 ∣ 128) :=
  ⟨(cpu_core_slots_disjoint_and_aligned lp64_lock4 8 4).1,
    (cpu_core_slots_disjoint_and_aligned lp64 128 4).2 (by decide) (by decide)⟩

/-- C6: looking up the per-processor table with the identifier `NCPU` is an index-range
error, and so is every identifier outside `0 <= id < NCPU`, negative ones included: the
lookup does not wrap around and returns no slot for them.  An identifier in range whose
processor is offline is refused the same way, and the identifier of an online processor
yields its own slot. -/
theorem per_cpu_get_rejects_out_of_range (tbl : PerCpuTable) :
    tbl.get (tbl.NCPU : Int) = .error .indexRange ∧
      (∀ id : Int, ¬ (0 ≤ id ∧ id < (tbl.NCPU : Int)) → tbl.get id = .error .indexRange) ∧
      (∀ id : Int, id < 0 → tbl.get id = .error .indexRange) ∧
      (∀ id : Int, ¬ (0 ≤ id ∧ id < (tbl.NCPU : Int)) →
        ∀ slot, tbl.get id ≠ .ok slot) ∧
      (∀ id : Int, tbl.online id.toNat = false → tbl.get id = .error .indexRange) ∧
      (∀ id : Int, 0 ≤ id → id < (tbl.NCPU : Int) → tbl.online id.toNat = true →
        tbl.get id = .ok (tbl.cpu id.toNat, tbl.core id.toNat)) := by
  have hout : ∀ id : Int, ¬ (0 ≤ id ∧ id < (tbl.NCPU : Int)) →
      tbl.get id = .error .indexRange := by
    intro id h
    unfold PerCpuTable.get
    rw [if_neg (fun hc => h ⟨hc.1, hc.2.1⟩)]
  refine ⟨hout _ (by omega), hout, fun id h => hout id (by omega), ?_, ?_, ?_⟩
  · intro id h slot hs
    rw [hout id h] at hs
    cases hs
  · intro id hoff
    unfold PerCpuTable.get
    rw [if_neg (fun hc => by rw [hoff] at hc; exact Bool.noConfusion hc.2.2)]
  · intro id h0 h1 hon
    unfold PerCpuTable.get
    rw [if_pos ⟨h0, h1, hon⟩]

/-- C7: with an 8-byte, 8-aligned `uintptr_t` and a `kmutex_t` of size `L <= 54` whose
alignment is a power of two dividing `L` (for a lock that has storage that is all; for
an empty one, when every power of two divides `L`, the alignment is at most 64),
`sizeof (cpu_core_t)` is 64 if and only if `L` is a multiple of 8.  When it is, there is
no hidden padding: `cpuc_dtrace_illval` is at offset `56 - L` and `cpuc_pid_lock` at
`64 - L`.  When it is not, the pointer is pushed from `56 - L` to the next multiple of 8
and `sizeof (cpu_core_t)` is greater than 64. -/
theorem cpu_core_size_iff_lock_multiple_of_8 (t : Target) (hw : 7 ≤ t.size_bits)
    (h16 : t.uint16_t.size = 2) (wf : t.uint16_t.wf)
    (hps : t.uintptr_t.size = 8) (hpa : t.uintptr_t.align = 8)
    (hL : (kmutex_t t).size ≤ 54) (wl : (kmutex_t t).wf)
    (hz : (kmutex_t t).size = 0 → (kmutex_t t).align ≤ 64) :
    (sizeof_cpu_core_t t = 64 ↔ 8 ∣ (kmutex_t t).size) ∧
      (8 ∣ (kmutex_t t).size →
        offsetsOf (cpu_core_t t) = [0, 2, 56 - (kmutex_t t).size, 64 - (kmutex_t t).size]) ∧
      (¬ 8 ∣ (kmutex_t t).size →
        64 < sizeof_cpu_core_t t ∧
          ∃ o2 o3, offsetsOf (cpu_core_t t) = [0, 2, o2, o3] ∧
            56 - (kmutex_t t).size < o2 ∧ o2 < 56 - (kmutex_t t).size + 8 ∧ 8 ∣ o2) := by
  have h64 := two_pow_gt_of_seven_le hw
  have hsum : t.uint16_t.size + t.uintptr_t.size + (kmutex_t t).size ≤ 64 := by omega
  have wp : t.uintptr_t.wf := ⟨by rw [hpa]; decide, by rw [hps, hpa]⟩
  have hal : (kmutex_t t).align ≤ 64 := by
    by_cases h0 : (kmutex_t t).size = 0
    · exact hz h0
    · have := Nat.le_of_dvd (Nat.pos_of_ne_zero h0) wl.2
      omega
  have dl : (kmutex_t t).align ∣ 64 := pow2_dvd_of_le (isPow2_exists wl.1) ⟨6, rfl⟩ hal
  have d16 : t.uint16_t.align ∣ 64 := Nat.dvd_trans wf.2 (by rw [h16]; decide)
  have hiff : sizeof_cpu_core_t t = 64 ↔ 8 ∣ (kmutex_t t).size := by
    show sizeofStruct (cpu_core_t_at 64 t) = 64 ↔ _
    rw [sizeof_at_iff 64 t h64 hsum wf wp wl, hpa]
    exact ⟨fun h => h.2.2.2, fun h => ⟨d16, by decide, dl, h⟩⟩
  have hge : 64 ≤ sizeof_cpu_core_t t := sizeof_at_ge 64 t h64 hsum
  have hpad : CPUC_PADSIZE t = 54 - (kmutex_t t).size := by
    rw [CPUC_PADSIZE_of_fit t hw hsum]; omega
  have hoff : offsetsOf (cpu_core_t t) =
      [0, 2, alignUp (56 - (kmutex_t t).size) 8,
        alignUp (alignUp (56 - (kmutex_t t).size) 8 + 8) (kmutex_t t).align] := by
    unfold cpu_core_t
    rw [offsetsOf_shape, hpad, h16, hps, hpa]
    have e : 2 + (54 - (kmutex_t t).size) = 56 - (kmutex_t t).size := by omega
    rw [e]
  refine ⟨hiff, ?_, ?_⟩
  · intro h8
    have e1 : alignUp (56 - (kmutex_t t).size) 8 = 56 - (kmutex_t t).size :=
      alignUp_of_dvd (Nat.dvd_sub' (by decide) h8)
    have e2 : 56 - (kmutex_t t).size + 8 = 64 - (kmutex_t t).size := by omega
    rw [hoff, e1, e2, alignUp_of_dvd (Nat.dvd_sub' dl wl.2)]
  · intro h8
    refine ⟨?_, _, _, hoff, ?_⟩
    · have hne : sizeof_cpu_core_t t ≠ 64 := fun h => h8 (hiff.1 h)
      omega
    · unfold alignUp
      omega

theorem cpu_core_size_iff_lock_multiple_of_8_witness :
    (sizeof_cpu_core_t lp64_lock4 = 64 ↔ 8 ∣ (kmutex_t lp64_lock4).size) ∧
      (8 ∣ (kmutex_t lp64_lock4).size →
        offsetsOf (cpu_core_t lp64_lock4) =
          [0, 2, 56 - (kmutex_t lp64_lock4).size, 64 - (kmutex_t lp64_lock4).size]) ∧
      (¬ 8 ∣ (kmutex_t lp64_lock4).size →
        64 < sizeof_cpu_core_t lp64_lock4 ∧
          ∃ o2 o3, offsetsOf (cpu_core_t lp64_lock4) = [0, 2, o2, o3] ∧
            56 - (kmutex_t lp64_lock4).size < o2 ∧
            o2 < 56 - (kmutex_t lp64_lock4).size + 8 ∧ 8 ∣ o2) :=
  cpu_core_size_iff_lock_multiple_of_8 lp64_lock4 (by decide) rfl (by decide)
    rfl rfl (by decide) (by decide) (by decide)

/-- C8: `CPUC_SIZE` is a `size_t` of width `w`, so `CPUC_PADSIZE` is computed modulo
`2 ^ w`: whenever `64 < CPUC_SIZE < 2 ^ w` its value is `2 ^ w - (CPUC_SIZE - 64)`, a
positive number greater than 64 and never a negative one, and `CPUC_PADSIZE` is 0 if and
only if `CPUC_SIZE` is exactly 64.  The width is that of a C `size_t`, which holds the
constant 64 (at least 7 bits; C requires 16). -/
theorem padsize_wraps_modulo (t : Target) (hw : 7 ≤ t.size_bits) :
    CPUC_SIZE t < 2 ^ t.size_bits ∧
      (64 < CPUC_SIZE t →
        CPUC_PADSIZE t = 2 ^ t.size_bits - (CPUC_SIZE t - 64) ∧
          0 < CPUC_PADSIZE t ∧ 64 < CPUC_PADSIZE t ∧ (0 : Int) ≤ (CPUC_PADSIZE t : Int)) ∧
      (CPUC_PADSIZE t = 0 ↔ CPUC_SIZE t = 64) := by
  have h64 := two_pow_gt_of_seven_le hw
  have hlt : CPUC_SIZE t < 2 ^ t.size_bits := szAdd_lt _ _ _
  refine ⟨hlt, ?_, ?_⟩
  · intro hbig
    have hpad : CPUC_PADSIZE t = 2 ^ t.size_bits - (CPUC_SIZE t - 64) := by
      unfold CPUC_PADSIZE CPU_CACHE_COHERENCE_SIZE
      exact szSub_of_gt hbig hlt
    refine ⟨hpad, ?_, ?_, ?_⟩ <;> omega
  · rcases Nat.lt_or_ge 64 (CPUC_SIZE t) with hbig | hle
    · have hpad : CPUC_PADSIZE t = 2 ^ t.size_bits - (CPUC_SIZE t - 64) := by
        unfold CPUC_PADSIZE CPU_CACHE_COHERENCE_SIZE
        exact szSub_of_gt hbig hlt
      omega
    · have hpad : CPUC_PADSIZE t = 64 - CPUC_SIZE t := by
        unfold CPUC_PADSIZE CPU_CACHE_COHERENCE_SIZE
        exact szSub_of_le hle h64
      omega

theorem padsize_wraps_modulo_witness :
    CPUC_SIZE lp64_lock56 < 2 ^ lp64_lock56.size_bits ∧
      (64 < CPUC_SIZE lp64_lock56 →
        CPUC_PADSIZE lp64_lock56 = 2 ^ lp64_lock56.size_bits - (CPUC_SIZE lp64_lock56 - 64) ∧
          0 < CPUC_PADSIZE lp64_lock56 ∧ 64 < CPUC_PADSIZE lp64_lock56 ∧
          (0 : Int) ≤ (CPUC_PADSIZE lp64_lock56 : Int)) ∧
      (CPUC_PADSIZE lp64_lock56 = 0 ↔ CPUC_SIZE lp64_lock56 = 64) :=
  padsize_wraps_modulo lp64_lock56 (by decide)

/-- C9: the replacement list of `CPUC_PADSIZE` is the three tokens
`CPU_CACHE_COHERENCE_SIZE - CPUC_SIZE`, without parentheses around them.  As the whole
array length of `cpuc_pad` its expansion is completely expanded and evaluates to the
padding length `64 - CPUC_SIZE` on every platform.  It is not safe inside a larger
expression: with `CPUC_SIZE` = 18, `2 * CPUC_PADSIZE` expands to a text of value
`2 * 64 - 18 = 110` where substituting the padding length gives `2 * 46 = 92`, and
`100 - CPUC_PADSIZE` expands to a text of value `100 - 64 - 18 = 18` where substituting
gives `100 - 46 = 54`. -/
theorem padsize_define_not_substitution_safe :
    defineBody .CPUC_PADSIZE = some [.id .CPU_CACHE_COHERENCE_SIZE, .minus, .id .CPUC_SIZE] ∧
      expand [.id .CPUC_PADSIZE] =
        [.num 64, .minus, .lparen, .kw_sizeof, .lparen, .id .uint16_t, .rparen, .plus,
          .kw_sizeof, .lparen, .id .uintptr_t, .rparen, .plus,
          .kw_sizeof, .lparen, .id .mutex_t, .rparen, .rparen] ∧
      fullyExpanded (expand [.id .CPUC_PADSIZE]) = true ∧
      (∀ t : Target, cpuc_pad_length t =
        some (szSub t.size_bits CPU_CACHE_COHERENCE_SIZE (CPUC_SIZE t))) ∧
      CPUC_SIZE lp64 = 18 ∧ cpuc_pad_length lp64 = some (64 - 18) ∧
      evalTokens lp64 (expand [.num 2, .star, .id .CPUC_PADSIZE]) = some 110 ∧
      evalTokens lp64 [.num 2, .star, .num (CPUC_PADSIZE lp64)] = some 92 ∧
      evalTokens lp64 (expand [.num 100, .minus, .id .CPUC_PADSIZE]) = some 18 ∧
      evalTokens lp64 [.num 100, .minus, .num (CPUC_PADSIZE lp64)] = some 54 := by
  refine ⟨rfl, by decide, by decide, fun t => cpuc_pad_length_eq t, by decide, by decide,
    by decide, by decide, by decide, by decide⟩

end CpuVar
